import Mathlib

/-!
Verification of the travix-acl-middleware rule registry and evaluator.

The development shallowly embeds the `Context` class of `src/context.js`
(registration batching, duplicate detection, CIDR rule lists, the
most-specific-CIDR-wins resolver, the memoizing evaluator produced by
`build()`) together with the constants module (`src/constants.js`).

The npm dependencies `ip` and `path-to-regexp` are not part of this
repository; the definitions that stand in for them are modelled from the
specification's description of their boundary (address parsing, CIDR
syntactic validity, address-in-range containment, range size, path-pattern
compilation) and carry doc comments saying so.  JavaScript exceptions are
modelled with `Except`; the JavaScript values that may reach the public API
(strings, `null`, `undefined`, other objects) are modelled by `JsVal`.
-/

namespace Acl

/-- Rule-type constant `ALLOW = 'allow'` from the constants module. -/
def ALLOW : String := "allow"

/-- Rule-type constant `DENY = 'deny'` from the constants module. -/
def DENY : String := "deny"

/-- Catch-all symbol `CATCH_ALL = '*'` from the constants module. -/
def CATCH_ALL : String := "*"

/-- Catch-all CIDR `CATCH_ALL_CIDR = '0.0.0.0/0'` from the constants module. -/
def CATCH_ALL_CIDR : String := "0.0.0.0/0"

/-- A JavaScript value as it may reach the configuration API: a string,
`null`, `undefined`, or some non-string object (tagged for distinctness). -/
inductive JsVal where
  | undef
  | null
  | str (s : String)
  | other (tag : String)
deriving DecidableEq

/-- lodash `isString`. -/
def isString : JsVal → Bool
  | .str _ => true
  | _ => false

/-- The error kinds the specification names; each corresponds to one of the
`throw new Error(...)` sites of `src/context.js` (or to the throw inside the
`ip` dependency for `invalidCidr`, and to an address that fails to parse at
containment-test time for `invalidAddress`). -/
inductive Err where
  | invalidResource
  | duplicateResource
  | invalidCidr
  | invalidAddress
  | malformedRule (msg : String)
deriving DecidableEq

/-- Split a character list at every occurrence of a separator, keeping empty
parts (the behaviour of JavaScript `String.prototype.split` with a
one-character separator). -/
def splitOnChar (sep : Char) : List Char → List (List Char)
  | [] => [[]]
  | c :: t =>
    match splitOnChar sep t with
    | [] => [[c]]
    | h :: r => if c == sep then [] :: h :: r else (c :: h) :: r

/-- The value of a non-empty all-digit character list, `none` otherwise. -/
def digitsToNat (l : List Char) : Option Nat :=
  if l.isEmpty then none
  else
    l.foldl
      (fun acc c =>
        match acc with
        | some n => if c.isDigit then some (n * 10 + (c.toNat - 48)) else none
        | none => none)
      (some 0)

/-- Modelled from the spec: one octet of a dotted-quad IPv4 address, written
as one to three decimal digits with value at most 255. -/
def parseOctet (l : List Char) : Option Nat :=
  match digitsToNat l with
  | some n => if l.length ≤ 3 && n ≤ 255 then some n else none
  | none => none

/-- Modelled from the spec: the `ip` dependency's parse of a "valid dotted
network address" — four dot-separated decimal octets, read as a 32-bit
number. -/
def parseIPv4Chars (l : List Char) : Option Nat :=
  match splitOnChar '.' l with
  | [a, b, c, d] =>
    match parseOctet a, parseOctet b, parseOctet c, parseOctet d with
    | some x, some y, some z, some w => some (((x * 256 + y) * 256 + z) * 256 + w)
    | _, _, _, _ => none
  | _ => none

/-- `parseIPv4Chars` over a string's characters. -/
def parseIPv4 (s : String) : Option Nat := parseIPv4Chars s.data

/-- Modelled from the spec: what `ip.cidrSubnet` returns — the (masked)
network address of a CIDR block together with its prefix length. -/
structure SubnetInfo where
  network : Nat
  prefixLen : Nat
deriving DecidableEq

/-- The number of addresses a subnet covers (the `length` field of the `ip`
dependency's subnet object): `2 ^ (32 - prefix length)`.  Specificity is the
inverse of this size. -/
def SubnetInfo.length (s : SubnetInfo) : Nat := 2 ^ (32 - s.prefixLen)

/-- Modelled from the spec: inclusive address-in-range containment — the
address lies in the block when its high `prefixLen` bits agree with the
network address's. -/
def SubnetInfo.contains (s : SubnetInfo) (a : Nat) : Bool :=
  a / s.length == s.network / s.length

/-- Modelled from the spec: a syntactically valid CIDR block — a valid
dotted network address, a slash, and a prefix length in range (0..32). -/
def parseCidr (s : String) : Option SubnetInfo :=
  match splitOnChar '/' s.data with
  | [a, p] =>
    match parseIPv4Chars a, digitsToNat p with
    | some addr, some len =>
        if len ≤ 32 then some ⟨addr / 2 ^ (32 - len) * 2 ^ (32 - len), len⟩ else none
    | _, _ => none
  | _ => none

/-- `ip.cidrSubnet`, with the `ip` dependency's throw on invalid input as an
`Except` error. -/
def cidrSubnet (s : String) : Except Err SubnetInfo :=
  match parseCidr s with
  | some info => .ok info
  | none => .error .invalidCidr

/-- A stored rule: `{ type: 'allow'|'deny', cidr }`.  The source also stores
an always-empty `children` list with no observable purpose (spec §9 calls it
dead structure); it is omitted. -/
structure Rule where
  type : String
  cidr : String
deriving DecidableEq

/-- The evaluation-time view of a rule built inside `getResourceRules`:
`{ subnet: ip.cidrSubnet(rule.cidr), allow: rule.type === ALLOW }`. -/
structure RuleView where
  subnet : SubnetInfo
  allow : Bool
deriving DecidableEq

/-- `ACCEPT_ALL_RULE = { allow: true, subnet: ip.cidrSubnet(CATCH_ALL_CIDR) }`;
`cidrSubnet CATCH_ALL_CIDR` evaluates to the subnet `⟨0, 0⟩`
(`accept_all_subnet_eval` below). -/
def ACCEPT_ALL_RULE : RuleView := { subnet := ⟨0, 0⟩, allow := true }

/-- A compiled resource pattern (`path-to-regexp` result): the number of
parameter keys, the registry identity (`toString()` of the regexp for a
parameterized pattern, the literal path otherwise), the match test, and the
`length` field that `forResource` overwrites with the path's length. -/
structure Pattern where
  keysLen : Nat
  id : String
  test : String → Bool
  length : Nat

/-- Modelled from the spec: a path spec contains parameter or wildcard
syntax when it uses `:name` parameters or a `*` wildcard. -/
def hasParamSyntax (p : String) : Bool := p.data.any fun c => c == ':' || c == '*'

/-- Segment-wise match for `:name` parameter patterns. -/
def segmentsMatch : List (List Char) → List (List Char) → Bool
  | [], [] => true
  | s :: ss, t :: ts => (s.headD ' ' == ':' || s == t) && segmentsMatch ss ts
  | _, _ => false

/-- Modelled from the spec: the compiled pattern's structural test against a
concrete path — a wildcard pattern matches every path continuing its literal
head (`/path/*` matches `/path/1` and `/path/1/2`), a parameter pattern
matches segment-wise, a literal pattern matches exactly. -/
def patternTest (pathSpec : String) (path : String) : Bool :=
  if pathSpec.data.any (· == '*') then
    (pathSpec.data.takeWhile (· != '*')).isPrefixOf path.data
  else if pathSpec.data.any (· == ':') then
    segmentsMatch (splitOnChar '/' pathSpec.data) (splitOnChar '/' path.data)
  else pathSpec == path

/-- Modelled from the spec: `pathToRegexp(path)` — a pattern with at least
one key exactly when the path spec uses parameter or wildcard syntax, whose
identity is a stable textual representation of the compiled form for
parameterized patterns and the literal string itself otherwise. -/
def pathToRegexp (path : String) : Pattern :=
  { keysLen := if hasParamSyntax path then 1 else 0
    id := if hasParamSyntax path then "/^" ++ path ++ "$/i" else path
    test := patternTest path
    length := 0 }

/-- The `Context` state: `this.patterns`, `this.rules` and
`this.lastAddedResources`.  The JavaScript rules object maps each resource
identity to its rule list; absent keys behave exactly like present-but-empty
lists everywhere the class reads them (`isEmpty`, `key in`-guarded reads,
`|| []`), so the map is modelled as a total function defaulting to `[]`. -/
structure Context where
  patterns : List Pattern
  rules : String → List Rule
  lastAddedResources : List String

/-- `new Context()` with no predefined rules. -/
def Context.empty : Context :=
  { patterns := [], rules := fun _ => [], lastAddedResources := [] }

/-- `validatePath`: throws unless the value is a string. -/
def validatePath (path : JsVal) : Except Err String :=
  match path with
  | .str s => .ok s
  | _ => .error .invalidResource

/-- `validateDuplicateResource`: throws when the resource identity is already
in the currently open batch. -/
def validateDuplicateResource (lastAdded : List String) (path : String) : Except Err Unit :=
  if path ∈ lastAdded then .error .duplicateResource else .ok ()

/-- The batch-reset step at the head of `forResource`: the open batch is
cleared when some batch member already owns one or more rules. -/
def resetBatch (ctx : Context) : List String :=
  if ctx.lastAddedResources.any (fun r => !(ctx.rules r).isEmpty) then []
  else ctx.lastAddedResources

/-- `forResource(path)`: validate the path, close the batch when some batch
member already owns rules (`resetBatch`), compile the pattern, register a
parameterized pattern in `patterns`, detect duplicates within the batch, and
open the resource in the batch.  `this.rules[resource] =
this.rules[resource] || []` leaves the total rule map unchanged (absent keys
already read as `[]`). -/
def Context.forResource (ctx : Context) (path : JsVal) : Except Err Context := do
  let p ← validatePath path
  let lastAdded := resetBatch ctx
  let pat : Pattern := { pathToRegexp p with length := p.length }
  let resource := if pat.keysLen ≠ 0 then pat.id else p
  let patterns := if pat.keysLen ≠ 0 then ctx.patterns ++ [pat] else ctx.patterns
  let _ ← validateDuplicateResource lastAdded resource
  pure { patterns := patterns, rules := ctx.rules,
         lastAddedResources := lastAdded ++ [resource] }

/-- `ensureIsValidCidr`: `ip.cidr(cidr)`, kept only for its throw. -/
def ensureIsValidCidr (cidr : String) : Except Err Unit := do
  let _ ← cidrSubnet cidr
  pure ()

/-- `validateCidr`: normalize the catch-all symbol to the catch-all CIDR,
then ensure validity; a non-string value throws inside the `ip` dependency. -/
def validateCidr (cidr : JsVal) : Except Err String :=
  match cidr with
  | .str s =>
      let c := if s = CATCH_ALL then CATCH_ALL_CIDR else s
      do
        let _ ← ensureIsValidCidr c
        pure c
  | _ => .error .invalidCidr

/-- The rule-map update of `addRule`'s `forEach`: push the rule onto the list
of every resource in the open batch, in batch order. -/
def pushAll (resources : List String) (rule : Rule) (rules : String → List Rule) :
    String → List Rule :=
  resources.foldl (fun acc res => fun k => if k = res then acc k ++ [rule] else acc k) rules

/-- `addRule(ruleType, cidr)`: validate the CIDR, then append the rule to
every resource of the open batch. -/
def Context.addRule (ctx : Context) (ruleType : String) (cidr : JsVal) :
    Except Err Context := do
  let c ← validateCidr cidr
  pure { ctx with rules := pushAll ctx.lastAddedResources ⟨ruleType, c⟩ ctx.rules }

/-- `allow(cidr)` (chainable). -/
def Context.allow (ctx : Context) (cidr : JsVal) : Except Err Context :=
  ctx.addRule ALLOW cidr

/-- `deny(cidr)` (chainable). -/
def Context.deny (ctx : Context) (cidr : JsVal) : Except Err Context :=
  ctx.addRule DENY cidr

/-- `getMostSpecificRule(rules)`: reduce from the implicit accept-all rule;
on an exact range-size tie combine by AND keeping the candidate's subnet,
otherwise keep whichever rule covers strictly fewer addresses. -/
def getMostSpecificRule (rules : List RuleView) : RuleView :=
  rules.foldl
    (fun prev current =>
      if prev.subnet.length = current.subnet.length then
        { subnet := current.subnet, allow := current.allow && prev.allow }
      else if prev.subnet.length < current.subnet.length then prev
      else current)
    ACCEPT_ALL_RULE

/-- `applicable(addr)`: the containment predicate over a rule view; parsing
the remote address happens inside the containment test, so a malformed
address throws there. -/
def applicable (addr : String) (rule : RuleView) : Except Err Bool :=
  match parseIPv4 addr with
  | some a => .ok (rule.subnet.contains a)
  | none => .error .invalidAddress

/-- The per-rule view built inside `getResourceRules`'s map:
`{ subnet: ip.cidrSubnet(rule.cidr), allow: rule.type === ALLOW }`. -/
def viewRule (r : Rule) : Except Err RuleView := do
  let subnet ← cidrSubnet r.cidr
  pure { subnet := subnet, allow := r.type == ALLOW }

/-- The key list `getResourceRules` scans: every registered pattern matching
the path (contributing its registry identity) followed by the literal path
itself. -/
def ruleKeys (ctx : Context) (resource : String) : List String :=
  (ctx.patterns.filter fun p => p.test resource).map (fun p => p.id) ++ [resource]

/-- JavaScript `Array.map` over a rule list (left to right, first throw
aborts). -/
def mapViews : List Rule → Except Err (List RuleView)
  | [] => pure []
  | r :: t => do
    let v ← viewRule r
    let vs ← mapViews t
    pure (v :: vs)

/-- The `reduce` of `getResourceRules`: concatenate the mapped rule views of
every key, in key order.  The `key in this.rules` guard is the identity in
the total-map model: an absent key reads as `[]` and contributes nothing. -/
def collectRules (ctx : Context) : List String → Except Err (List RuleView)
  | [] => pure []
  | k :: ks => do
    let vs ← mapViews (ctx.rules k)
    let rest ← collectRules ctx ks
    pure (vs ++ rest)

/-- `getResourceRules(resource)`. -/
def Context.getResourceRules (ctx : Context) (resource : String) :
    Except Err (List RuleView) :=
  collectRules ctx (ruleKeys ctx resource)

/-- JavaScript `Array.filter` with a predicate that may throw. -/
def filterE {α : Type} (p : α → Except Err Bool) : List α → Except Err (List α)
  | [] => pure []
  | x :: xs => do
    let keep ← p x
    let rest ← filterE p xs
    pure (if keep then x :: rest else rest)

/-- `isAllowed(resource, addr)`: collect the rules of every matching
resource, filter by containment, reduce to the most specific rule, return
its verdict. -/
def Context.isAllowed (ctx : Context) (resource addr : String) : Except Err Bool := do
  let resourceRules ← ctx.getResourceRules resource
  let applicableRules ← filterE (applicable addr) resourceRules
  pure (getMostSpecificRule applicableRules).allow

/-- The applicable-rule list `isAllowed` reduces: collected rules filtered
by containment of the address. -/
def Context.applicableRules (ctx : Context) (resource addr : String) :
    Except Err (List RuleView) := do
  let resourceRules ← ctx.getResourceRules resource
  filterE (applicable addr) resourceRules

/-- The comparator `build()` passes to `Array.prototype.sort`: the source's
`pattern => pattern.length` declares one parameter, so called as a
comparator it returns its first operand's length and ignores the second
operand entirely. -/
def sortComparator (p : Pattern) (_q : Pattern) : Int := p.length

/-- Comparator-driven insertion of one element (the insertion step JavaScript
engines use for short arrays: the element moves past every earlier element
the comparator orders after it). -/
def jsInsert {α : Type} (cmp : α → α → Int) (x : α) : List α → List α
  | [] => [x]
  | y :: ys => if cmp y x > 0 then x :: y :: ys else y :: jsInsert cmp x ys

/-- Comparator-driven insertion sort, the reference model for
`Array.prototype.sort` on short arrays.  ECMAScript leaves the result
implementation-defined when the comparator is not a consistent comparison
function. -/
def jsInsertionSort {α : Type} (cmp : α → α → Int) (l : List α) : List α :=
  l.foldl (fun acc x => jsInsert cmp x acc) []

/-- `build()`: sort the parameterized patterns with `sortComparator` and
hand the context to the memoizing evaluator (`evalMemo`). -/
def Context.build (ctx : Context) : Context :=
  { ctx with patterns := jsInsertionSort sortComparator ctx.patterns }

/-- The memo-key resolver `(...args) => args.splice(0, 2).join(' ')`: the
first two arguments joined by a single space. -/
def memoKey (resource addr : String) : String := resource ++ " " ++ addr

/-- The memoizing evaluator returned by `build()` (lodash `memoize`): a hit
on the composite key returns the cached decision without re-running
resolution; a miss runs `isAllowed` and caches the decision (nothing is
cached when it throws). -/
def evalMemo (ctx : Context) (cache : List (String × Bool)) (resource addr : String) :
    Except Err Bool × List (String × Bool) :=
  match List.lookup (memoKey resource addr) cache with
  | some v => (.ok v, cache)
  | none =>
    match ctx.isAllowed resource addr with
    | .ok v => (.ok v, cache ++ [(memoKey resource addr, v)])
    | .error e => (.error e, cache)

/-- A field of a declarative rule record: absent, a single value, or an
array of values. -/
inductive JsField where
  | absent
  | single (v : JsVal)
  | many (vs : List JsVal)

/-- A declarative rule record `{ resource, allow, deny }`. -/
structure RuleRecord where
  resource : JsField
  allow : JsField
  deny : JsField

/-- An entry of the predefined rules array: a plain-object record, or some
non-object value. -/
inductive ConfigItem where
  | notPlainObject
  | record (r : RuleRecord)

/-- `let { resource } = rule` followed by the array wrap: an absent resource
destructures to `undefined` and is wrapped into `[undefined]`. -/
def resourceValues : JsField → List JsVal
  | .absent => [.undef]
  | .single v => [v]
  | .many vs => vs

/-- `let { allow = [] } = rule` (likewise `deny`) followed by the array
wrap: an absent field defaults to the empty list. -/
def cidrValues : JsField → List JsVal
  | .absent => []
  | .single v => [v]
  | .many vs => vs

/-- Constructor message `'Rule has to be a plain object'`. -/
def plainObjectMsg : String := "Rule has to be a plain object"

/-- Constructor message `'Rule has to have a resource'`. -/
def hasResourceMsg : String := "Rule has to have a resource"

/-- Constructor message for a record with neither allow nor deny values. -/
def allowDenyMsg : String := "Rule has to have at least one of \"allow\" or \"deny\" lists"

/-- One iteration of the constructor's loop over a record: shape checks,
then `forResource` for every resource, then `deny` for every deny value,
then `allow` for every allow value. -/
def applyRecord (ctx : Context) (r : RuleRecord) : Except Err Context := do
  let resource := resourceValues r.resource
  if resource.isEmpty then .error (.malformedRule hasResourceMsg)
  else
    let allowVals := cidrValues r.allow
    let denyVals := cidrValues r.deny
    if allowVals.isEmpty && denyVals.isEmpty then .error (.malformedRule allowDenyMsg)
    else do
      let ctx1 ← resource.foldlM (fun c p => c.forResource p) ctx
      let ctx2 ← denyVals.foldlM (fun c v => c.deny v) ctx1
      allowVals.foldlM (fun c v => c.allow v) ctx2

/-- `new Context(rules)`: fold the constructor's loop over the predefined
rule records, starting from the empty registry. -/
def ctxOfRules (rules : List ConfigItem) : Except Err Context :=
  rules.foldlM
    (fun ctx item =>
      match item with
      | .notPlainObject => .error (.malformedRule plainObjectMsg)
      | .record r => applyRecord ctx r)
    Context.empty

/-- The implicit default rule the spec's reduction starts from: allow for
the widest possible range. -/
def specBaseline : RuleView := { subnet := ⟨0, 0⟩, allow := true }

/-- The most-specific-CIDR-wins reduction exactly as the specification words
it (§4.3 step 4): a strictly narrower candidate replaces the winner
outright, a strictly wider candidate is discarded, and an exact tie in range
size combines the two decisions by logical AND while keeping the tied range
size. -/
def specMostSpecific (rules : List RuleView) : RuleView :=
  rules.foldl
    (fun winner cand =>
      if cand.subnet.length < winner.subnet.length then cand
      else if winner.subnet.length < cand.subnet.length then winner
      else { subnet := cand.subnet, allow := winner.allow && cand.allow })
    specBaseline

/-- Every stored rule's CIDR is syntactically valid — the invariant every
registry reachable through `validateCidr` maintains. -/
def ValidRules (ctx : Context) : Prop :=
  ∀ k r, r ∈ ctx.rules k → (parseCidr r.cidr).isSome = true

/-- The registration batch is open: no batch member owns any rules yet (the
reset predicate of `forResource`). -/
def BatchOpen (ctx : Context) : Prop :=
  ∀ r ∈ ctx.lastAddedResources, ctx.rules r = []

/-- Ascending sortedness under a numeric key. -/
def sortedAscBy {α : Type} (f : α → Nat) : List α → Bool
  | [] => true
  | [_] => true
  | a :: b :: t => decide (f a ≤ f b) && sortedAscBy f (b :: t)

/-- Descending sortedness under a numeric key. -/
def sortedDescBy {α : Type} (f : α → Nat) : List α → Bool
  | [] => true
  | [_] => true
  | a :: b :: t => decide (f b ≤ f a) && sortedDescBy f (b :: t)

/-- The state `forResource` leaves behind when it registers a literal
(parameterless) path without error: patterns and rules unchanged, the path
appended to the (possibly reset) batch. -/
def afterLiteral (ctx : Context) (s : String) : Context :=
  { patterns := ctx.patterns, rules := ctx.rules,
    lastAddedResources := resetBatch ctx ++ [s] }

/-- The state `addRule` leaves behind when the CIDR validates to `c'`. -/
def afterAddRule (ctx : Context) (ty c' : String) : Context :=
  { ctx with rules := pushAll ctx.lastAddedResources ⟨ty, c'⟩ ctx.rules }

/-- The fluent chain of the spec's end-to-end scenario:
`forResource('/health_check').deny('*').allow('127.0.0.1/32')`. -/
def healthCheckChain : Except Err Context :=
  (Context.empty.forResource (.str "/health_check")).bind fun c =>
    (c.deny (.str "*")).bind fun c => c.allow (.str "127.0.0.1/32")

/-- A registry whose only resource is the literal path `/a 1.2.3.4` (a path
containing a space), denied to everyone. -/
def spacedChain : Except Err Context :=
  (Context.empty.forResource (.str "/a 1.2.3.4")).bind fun c => c.deny (.str "*")

/-- A parameterized pattern of the given matched literal length (the match
test's behaviour is irrelevant to the sort). -/
def mkTestPattern (n : Nat) : Pattern :=
  { keysLen := 1, id := "p", test := fun _ => false, length := n }

/-- A registry holding three parameterized patterns with literal lengths 5,
9 and 7, registered in that order. -/
def threePatternCtx : Context :=
  { patterns := [mkTestPattern 5, mkTestPattern 9, mkTestPattern 7],
    rules := fun _ => [], lastAddedResources := [] }

/-- Sanity: the accept-all subnet is what `ip.cidrSubnet(CATCH_ALL_CIDR)`
produces. -/
theorem accept_all_subnet_eval : cidrSubnet CATCH_ALL_CIDR = .ok ⟨0, 0⟩ := rfl

/-- The source's reduction step equals the spec's reduction step, so the two
folds agree on every rule list. -/
theorem getMostSpecificRule_eq_spec (rules : List RuleView) :
    getMostSpecificRule rules = specMostSpecific rules := by
  have hstep : ∀ prev current : RuleView,
      (if prev.subnet.length = current.subnet.length then
        { subnet := current.subnet, allow := current.allow && prev.allow }
      else if prev.subnet.length < current.subnet.length then prev
      else current)
    = (if current.subnet.length < prev.subnet.length then current
      else if prev.subnet.length < current.subnet.length then prev
      else { subnet := current.subnet, allow := prev.allow && current.allow }) := by
    intro prev current
    by_cases h1 : prev.subnet.length = current.subnet.length
    · simp [h1, Bool.and_comm]
    · by_cases h2 : prev.subnet.length < current.subnet.length
      · simp [h1, h2, Nat.lt_asymm h2]
      · have h3 : current.subnet.length < prev.subnet.length := by omega
        simp [h1, h2, h3]
  unfold getMostSpecificRule specMostSpecific
  simp only [hstep]
  rfl

/-- A rule list whose CIDRs all parse maps to rule views without error. -/
theorem mapViews_ok (l : List Rule) (h : ∀ r ∈ l, (parseCidr r.cidr).isSome = true) :
    ∃ vs, mapViews l = .ok vs := by
  induction l with
  | nil => exact ⟨[], rfl⟩
  | cons r t ih =>
    obtain ⟨info, hinfo⟩ := Option.isSome_iff_exists.mp (h r (List.mem_cons_self r t))
    obtain ⟨vs, hvs⟩ := ih fun x hx => h x (List.mem_cons_of_mem r hx)
    refine ⟨⟨info, r.type == ALLOW⟩ :: vs, ?_⟩
    simp [mapViews, viewRule, cidrSubnet, hinfo, hvs, bind, Except.bind, pure, Except.pure]

/-- Rule collection never throws over a registry whose stored CIDRs parse. -/
theorem collectRules_ok (ctx : Context) (h : ValidRules ctx) (ks : List String) :
    ∃ vs, collectRules ctx ks = .ok vs := by
  induction ks with
  | nil => exact ⟨[], rfl⟩
  | cons k t ih =>
    obtain ⟨vs1, h1⟩ := mapViews_ok (ctx.rules k) fun r hr => h k r hr
    obtain ⟨vs2, h2⟩ := ih
    exact ⟨vs1 ++ vs2, by simp [collectRules, h1, h2, bind, Except.bind, pure, Except.pure]⟩

/-- Filtering with a predicate that succeeds on every element never throws. -/
theorem filterE_ok {α : Type} (p : α → Except Err Bool) (l : List α)
    (h : ∀ x ∈ l, ∃ b, p x = .ok b) : ∃ l', filterE p l = .ok l' := by
  induction l with
  | nil => exact ⟨[], rfl⟩
  | cons x t ih =>
    obtain ⟨b, hb⟩ := h x (List.mem_cons_self x t)
    obtain ⟨l', hl'⟩ := ih fun y hy => h y (List.mem_cons_of_mem x hy)
    exact ⟨if b then x :: l' else l',
      by simp [filterE, hb, hl', bind, Except.bind, pure, Except.pure]⟩

/-- Evaluating `pushAll` at a key appends one copy of the rule per
occurrence of the key in the batch. -/
theorem pushAll_apply (l : List String) (rule : Rule) (rules : String → List Rule)
    (k : String) :
    pushAll l rule rules k = rules k ++ List.replicate (l.count k) rule := by
  induction l generalizing rules with
  | nil => simp [pushAll]
  | cons a t ih =>
    simp only [pushAll, List.foldl_cons] at *
    rw [ih]
    by_cases hk : k = a
    · subst hk
      simp [List.count_cons, List.replicate_succ]
    · simp [hk, List.count_cons, Ne.symm hk]

/-- Registering a literal path absent from the (reset) batch succeeds and
appends it to the batch. -/
theorem forResource_literal_ok (ctx : Context) (s : String)
    (hs : hasParamSyntax s = false) (hmem : s ∉ resetBatch ctx) :
    ctx.forResource (.str s) = .ok (afterLiteral ctx s) := by
  unfold Context.forResource validatePath validateDuplicateResource pathToRegexp afterLiteral
  simp [hs, bind, Except.bind, pure, Except.pure, hmem]

/-- Registering a literal path already present in the (reset) batch raises
the duplicate-resource error. -/
theorem forResource_literal_dup (ctx : Context) (s : String)
    (hs : hasParamSyntax s = false) (hmem : s ∈ resetBatch ctx) :
    ctx.forResource (.str s) = .error .duplicateResource := by
  unfold Context.forResource validatePath validateDuplicateResource pathToRegexp
  simp [hs, bind, Except.bind, pure, Except.pure, hmem]

/-- `addRule` with a CIDR that validates updates the rule map and nothing
else. -/
theorem addRule_ok (ctx : Context) (ty : String) (cidr : JsVal) (c' : String)
    (h : validateCidr cidr = .ok c') :
    ctx.addRule ty cidr = .ok (afterAddRule ctx ty c') := by
  unfold Context.addRule afterAddRule
  simp [h, bind, Except.bind, pure, Except.pure]

/-- When no batch member owns rules the reset step keeps the batch. -/
theorem resetBatch_of_open (ctx : Context) (h : BatchOpen ctx) :
    resetBatch ctx = ctx.lastAddedResources := by
  unfold resetBatch
  have : ctx.lastAddedResources.any (fun r => !(ctx.rules r).isEmpty) = false := by
    simp only [List.any_eq_false]
    intro r hr
    simp [h r hr]
  simp [this]

/-- When some batch member owns a rule the reset step clears the batch. -/
theorem resetBatch_of_member (ctx : Context) (r : String)
    (hr : r ∈ ctx.lastAddedResources) (hne : ctx.rules r ≠ []) :
    resetBatch ctx = [] := by
  unfold resetBatch
  have : ctx.lastAddedResources.any (fun x => !(ctx.rules x).isEmpty) = true :=
    List.any_eq_true.mpr ⟨r, hr, by simp [List.isEmpty_iff, hne]⟩
  simp [this]

/-- Duplicate detection can only raise the duplicate-resource error. -/
theorem validateDuplicateResource_not_invalid (l : List String) (p : String) :
    validateDuplicateResource l p ≠ .error .invalidResource := by
  unfold validateDuplicateResource
  split <;> simp

/-- C1: for every registry state and every (path, address) input, the
decision `isAllowed` computes equals the result of reducing the applicable
rules (rules of every registered pattern matching the path plus the literal
path, filtered to those whose CIDR range contains the address) by the spec's
most-specific-CIDR-wins fold from the implicit catch-all allow baseline: a
strictly narrower candidate replaces the winner outright, a strictly wider
one is discarded, and an exact tie in range size combines by logical AND
keeping the tied range size; the final winner's verdict is the boolean
result. -/
theorem most_specific_reduction_matches_spec (ctx : Context) (resource addr : String) :
    ctx.isAllowed resource addr
      = (ctx.applicableRules resource addr).map fun rs => (specMostSpecific rs).allow := by
  unfold Context.isAllowed Context.applicableRules
  cases h1 : ctx.getResourceRules resource with
  | error e => rfl
  | ok rs =>
    cases h2 : filterE (applicable addr) rs with
    | error e => simp [bind, Except.bind, h2, Except.map]
    | ok aps =>
      simp [bind, Except.bind, h2, Except.map, pure, Except.pure, getMostSpecificRule_eq_spec]

/-- C2: for the registry built by `forResource('/health_check')`,
`deny('*')`, `allow('127.0.0.1/32')`, the evaluator returned by `build()`
answers `true` for `('/health_check', '127.0.0.1')` and `false` for
`('/health_check', '10.0.0.1')`. -/
theorem health_check_end_to_end :
    healthCheckChain.map (fun c =>
      ((evalMemo c.build [] "/health_check" "127.0.0.1").1,
       (evalMemo c.build [] "/health_check" "10.0.0.1").1))
    = .ok (.ok true, .ok false) := rfl

/-- C3: evaluation after `build()` never raises for well-formed inputs (a
registry whose stored CIDRs parse, an address that parses); whenever no
applicable rule survives collection and filtering — no pattern matches the
path, or no rule's range contains the address — the result is the baseline
allow; in particular with no rules registered at all,
`evaluate('/anything', '8.8.8.8')` is `true`. -/
theorem evaluation_never_fails :
    (∀ (ctx : Context) (resource addr : String), ValidRules ctx →
        (parseIPv4 addr).isSome = true → (ctx.isAllowed resource addr).isOk = true)
  ∧ (∀ (ctx : Context) (resource addr : String),
        ctx.applicableRules resource addr = .ok [] →
        ctx.isAllowed resource addr = .ok true)
  ∧ (evalMemo Context.empty.build [] "/anything" "8.8.8.8").1 = .ok true := by
  refine ⟨?_, ?_, rfl⟩
  · intro ctx resource addr hrules haddr
    obtain ⟨a, ha⟩ := Option.isSome_iff_exists.mp haddr
    obtain ⟨rs, hrs⟩ := collectRules_ok ctx hrules (ruleKeys ctx resource)
    obtain ⟨aps, haps⟩ := filterE_ok (applicable addr) rs
      fun x _ => ⟨x.subnet.contains a, by simp [applicable, ha]⟩
    simp [Context.isAllowed, Context.getResourceRules, hrs, haps,
      bind, Except.bind, pure, Except.pure, Except.isOk, Except.toBool]
  · intro ctx resource addr happ
    unfold Context.applicableRules at happ
    unfold Context.isAllowed
    cases h1 : ctx.getResourceRules resource with
    | error e => rw [h1] at happ; exact absurd happ (by simp [bind, Except.bind])
    | ok rs =>
      rw [h1] at happ
      simp [bind, Except.bind] at happ
      simp [bind, Except.bind, happ, pure, Except.pure]
      rfl

/-- Witness for C3: the hypotheses hold at the empty registry with address
`8.8.8.8`, and evaluation succeeds. -/
theorem evaluation_never_fails_witness :
    (Context.empty.isAllowed "/anything" "8.8.8.8").isOk = true :=
  evaluation_never_fails.1 Context.empty "/anything" "8.8.8.8"
    (fun _ r hr => absurd hr (List.not_mem_nil r)) rfl

/-- C4: registering the same literal resource twice consecutively within one
open batch (no batch member owning rules, the resource itself owning none)
raises the duplicate-resource error; registering a resource, attaching a
rule, then registering it again succeeds, reopening it so that a further
rule call appends to its existing rule list. -/
theorem duplicate_in_open_batch_and_reopen :
    (∀ (ctx : Context) (s : String), hasParamSyntax s = false → BatchOpen ctx →
        s ∉ ctx.lastAddedResources → ctx.rules s = [] →
        (ctx.forResource (.str s)).bind (fun c => c.forResource (.str s))
          = .error .duplicateResource)
  ∧ (∀ (ctx ctx1 : Context) (s : String) (c d : JsVal) (c1 d1 : String),
        hasParamSyntax s = false →
        ctx.forResource (.str s) = .ok ctx1 →
        validateCidr c = .ok c1 → validateCidr d = .ok d1 →
        ∃ ctx2 ctx3 ctx4,
          ctx1.deny c = .ok ctx2 ∧ ctx2.rules s ≠ [] ∧
          ctx2.forResource (.str s) = .ok ctx3 ∧ ctx3.rules s = ctx2.rules s ∧
          ctx3.allow d = .ok ctx4 ∧
          ctx4.rules s = ctx2.rules s ++ [⟨ALLOW, d1⟩]) := by
  constructor
  · intro ctx s hs hopen hnot hrules
    have hreset : resetBatch ctx = ctx.lastAddedResources := resetBatch_of_open ctx hopen
    rw [forResource_literal_ok ctx s hs (by rw [hreset]; exact hnot)]
    show Except.bind _ _ = _
    rw [Except.bind]
    apply forResource_literal_dup _ s hs
    have hopen1 : BatchOpen (afterLiteral ctx s) := by
      intro r hr
      have hr' : r ∈ resetBatch ctx ++ [s] := hr
      rw [hreset] at hr'
      show ctx.rules r = []
      rcases List.mem_append.mp hr' with h | h
      · exact hopen r h
      · rw [List.mem_singleton.mp h]; exact hrules
    rw [resetBatch_of_open _ hopen1]
    show s ∈ resetBatch ctx ++ [s]
    exact List.mem_append_right _ (List.mem_singleton.mpr rfl)
  · intro ctx ctx1 s c d c1 d1 hs h1 hc hd
    have hctx1 : ctx1 = afterLiteral ctx s := by
      by_cases hmem : s ∈ resetBatch ctx
      · rw [forResource_literal_dup ctx s hs hmem] at h1; cases h1
      · rw [forResource_literal_ok ctx s hs hmem] at h1
        cases h1
        rfl
    subst hctx1
    have hmem2 : s ∈ (afterLiteral ctx s).lastAddedResources :=
      List.mem_append_right _ (List.mem_singleton.mpr rfl)
    have hne : (afterAddRule (afterLiteral ctx s) DENY c1).rules s ≠ [] := by
      show pushAll (afterLiteral ctx s).lastAddedResources _ _ s ≠ []
      rw [pushAll_apply]
      have hcnt : 0 < ((afterLiteral ctx s).lastAddedResources).count s :=
        List.count_pos_iff.mpr hmem2
      intro hcontra
      rcases List.append_eq_nil.mp hcontra with ⟨_, hrep⟩
      have := congrArg List.length hrep
      simp [List.length_replicate] at this
      omega
    have hreset2 : resetBatch (afterAddRule (afterLiteral ctx s) DENY c1) = [] :=
      resetBatch_of_member _ s hmem2 hne
    refine ⟨afterAddRule (afterLiteral ctx s) DENY c1,
            afterLiteral (afterAddRule (afterLiteral ctx s) DENY c1) s,
            afterAddRule (afterLiteral (afterAddRule (afterLiteral ctx s) DENY c1) s) ALLOW d1,
            addRule_ok _ DENY c c1 hc, hne,
            forResource_literal_ok _ s hs (by rw [hreset2]; exact List.not_mem_nil s),
            rfl, addRule_ok _ ALLOW d d1 hd, ?_⟩
    show pushAll (afterLiteral (afterAddRule (afterLiteral ctx s) DENY c1) s).lastAddedResources
        ⟨ALLOW, d1⟩ _ s = _
    rw [pushAll_apply]
    have : (afterLiteral (afterAddRule (afterLiteral ctx s) DENY c1) s).lastAddedResources
        = resetBatch (afterAddRule (afterLiteral ctx s) DENY c1) ++ [s] := rfl
    rw [this, hreset2]
    simp
    rfl

/-- Witness for C4: both parts at the empty registry, resource `/x`, rules
`deny('*')` then `allow('*')`. -/
theorem duplicate_in_open_batch_and_reopen_witness :
    ((Context.empty.forResource (.str "/x")).bind
        (fun c => c.forResource (.str "/x")) = .error .duplicateResource)
  ∧ (∃ ctx2 ctx3 ctx4,
      (afterLiteral Context.empty "/x").deny (.str "*") = .ok ctx2 ∧
      ctx2.rules "/x" ≠ [] ∧
      ctx2.forResource (.str "/x") = .ok ctx3 ∧ ctx3.rules "/x" = ctx2.rules "/x" ∧
      ctx3.allow (.str "*") = .ok ctx4 ∧
      ctx4.rules "/x" = ctx2.rules "/x" ++ [⟨ALLOW, "0.0.0.0/0"⟩]) :=
  ⟨duplicate_in_open_batch_and_reopen.1 Context.empty "/x" rfl
      (fun r hr => absurd hr (List.not_mem_nil r))
      (List.not_mem_nil _) rfl,
   duplicate_in_open_batch_and_reopen.2 Context.empty (afterLiteral Context.empty "/x")
      "/x" (.str "*") (.str "*") "0.0.0.0/0" "0.0.0.0/0" rfl
      (forResource_literal_ok Context.empty "/x" rfl (List.not_mem_nil _)) rfl rfl⟩

/-- Counterexample for C5 as stated: with no batch open (no prior
`forResource`), `allow('')` still raises — CIDR validation runs before the
batch is consulted — so the call is not unconditionally non-raising. -/
theorem no_batch_invalid_cidr_still_raises :
    Context.empty.lastAddedResources = []
    ∧ Context.empty.allow (.str "") = .error .invalidCidr := ⟨rfl, rfl⟩

/-- C5 (amended): with no batch open, `allow(cidr)` and `deny(cidr)` reduce
to CIDR validation alone — for a cidr that validates they succeed and return
the registry completely unchanged (no rule attached to any pattern), and an
invalid cidr raises `InvalidCidrError` while still attaching nothing. -/
theorem no_batch_rule_calls_noop (ctx : Context) (c : JsVal)
    (h : ctx.lastAddedResources = []) :
    ctx.allow c = (validateCidr c).map (fun _ => ctx)
    ∧ ctx.deny c = (validateCidr c).map (fun _ => ctx) := by
  obtain ⟨pats, rules, last⟩ := ctx
  have h' : last = [] := h
  subst h'
  unfold Context.allow Context.deny Context.addRule
  cases hv : validateCidr c with
  | error e => simp [hv, bind, Except.bind, Except.map]
  | ok c' =>
    constructor <;>
      simp [hv, bind, Except.bind, Except.map, pure, Except.pure, pushAll]

/-- Witness for C5's amended theorem: the empty registry with `'*'`. -/
theorem no_batch_rule_calls_noop_witness :
    Context.empty.allow (.str "*") = (validateCidr (.str "*")).map (fun _ => Context.empty)
  ∧ Context.empty.deny (.str "*") = (validateCidr (.str "*")).map (fun _ => Context.empty) :=
  no_batch_rule_calls_noop Context.empty (.str "*") rfl

/-- Counterexample for C6 as stated: the empty string is a string, so
`forResource('')` validates and succeeds instead of raising
`InvalidResourceError`. -/
theorem empty_string_resource_accepted :
    (Context.empty.forResource (.str "")).isOk = true ∧ isString (.str "") = true :=
  ⟨rfl, rfl⟩

/-- C6 (amended): registration fails with `InvalidResourceError` exactly for
the non-string inputs (`null`, absent, any non-string value); every string
input, the empty string included, passes path validation. -/
theorem invalid_resource_error_iff_not_string (ctx : Context) (v : JsVal) :
    (ctx.forResource v = .error .invalidResource) ↔ isString v = false := by
  cases v with
  | str s =>
    unfold Context.forResource validatePath
    simp only [bind, Except.bind, pure, Except.pure, isString]
    cases hu : validateDuplicateResource (resetBatch ctx)
        (if (pathToRegexp s).keysLen ≠ 0 then (pathToRegexp s).id else s) with
    | error e =>
      have hne : e ≠ Err.invalidResource :=
        fun h => validateDuplicateResource_not_invalid _ _ (h ▸ hu)
      simp [hne]
    | ok u => simp
  | undef => simp [Context.forResource, validatePath, isString, bind, Except.bind]
  | null => simp [Context.forResource, validatePath, isString, bind, Except.bind]
  | other t => simp [Context.forResource, validatePath, isString, bind, Except.bind]

/-- C7: CIDR validation accepts the catch-all symbol and normalizes it to
the widest range `0.0.0.0/0`, which covers `2 ^ 32` addresses and contains
every 32-bit address; the empty string, a missing value, the malformed
address `127.0.1/32` and the bare address `0.0.0.0` each raise
`InvalidCidrError`; and in general a string cidr is accepted exactly when it
(or its catch-all normalization) parses as a syntactically valid
network/prefix pair. -/
theorem cidr_validation_catchall_and_invalid :
    (validateCidr (.str CATCH_ALL) = .ok CATCH_ALL_CIDR)
  ∧ (cidrSubnet CATCH_ALL_CIDR = .ok ⟨0, 0⟩)
  ∧ (SubnetInfo.length ⟨0, 0⟩ = 2 ^ 32)
  ∧ (∀ a : Fin (2 ^ 32), SubnetInfo.contains ⟨0, 0⟩ a.val = true)
  ∧ (validateCidr (.str "") = .error .invalidCidr)
  ∧ (validateCidr .undef = .error .invalidCidr)
  ∧ (validateCidr (.str "127.0.1/32") = .error .invalidCidr)
  ∧ (validateCidr (.str "0.0.0.0") = .error .invalidCidr)
  ∧ (∀ s : String, (validateCidr (.str s)).isOk
      = (parseCidr (if s = CATCH_ALL then CATCH_ALL_CIDR else s)).isSome) := by
  refine ⟨rfl, rfl, rfl, ?_, rfl, rfl, rfl, rfl, ?_⟩
  · intro a
    have hlt : a.val < 4294967296 := by
      have := a.isLt
      norm_num at this
      exact this
    simp [SubnetInfo.contains, SubnetInfo.length, Nat.div_eq_of_lt hlt]
  · intro s
    unfold validateCidr ensureIsValidCidr cidrSubnet
    cases h : parseCidr (if s = CATCH_ALL then CATCH_ALL_CIDR else s) <;>
      simp [h, bind, Except.bind, pure, Except.pure, Except.isOk, Except.toBool]

/-- Witness for C7: the catch-all subnet contains the concrete address
`8.8.8.8` (as the 32-bit number 134744072). -/
theorem cidr_validation_catchall_and_invalid_witness :
    SubnetInfo.contains ⟨0, 0⟩ 134744072 = true :=
  cidr_validation_catchall_and_invalid.2.2.2.1 ⟨134744072, by norm_num⟩

/-- Counterexample for C8 as stated: a record that lacks a resource field
entirely does raise, but with the path-validation error
(`InvalidResourceError`, thrown by `forResource(undefined)`), not
`MalformedRuleError`. -/
theorem missing_resource_raises_path_error :
    ctxOfRules [.record ⟨.absent, .single (.str "*"), .absent⟩] = .error .invalidResource
  ∧ Err.invalidResource ≠ Err.malformedRule hasResourceMsg := ⟨rfl, by decide⟩

/-- C8 (amended): declarative construction raises `MalformedRuleError` for a
non-object record, for an explicitly empty resource list, and for a record
with neither allow nor deny values; each record's resources are registered
first, then all deny values, then all allow values (deny before allow even
though the record lists allow first); a record whose resource field is
absent raises `InvalidResourceError` from path validation instead. -/
theorem declarative_construction_checks :
    (ctxOfRules [.notPlainObject] = .error (.malformedRule plainObjectMsg))
  ∧ (ctxOfRules [.record ⟨.many [], .single (.str "*"), .absent⟩]
      = .error (.malformedRule hasResourceMsg))
  ∧ (ctxOfRules [.record ⟨.single (.str "/x"), .absent, .absent⟩]
      = .error (.malformedRule allowDenyMsg))
  ∧ ((ctxOfRules [.record ⟨.single (.str "/x"), .single (.str "*"), .single (.str "*")⟩]).map
        (fun c => c.rules "/x")
      = .ok [⟨DENY, CATCH_ALL_CIDR⟩, ⟨ALLOW, CATCH_ALL_CIDR⟩])
  ∧ (ctxOfRules [.record ⟨.absent, .single (.str "*"), .absent⟩]
      = .error .invalidResource) :=
  ⟨rfl, rfl, rfl, rfl, rfl⟩

/-- C9: the comparator `build()` hands to `Array.prototype.sort` ignores its
second operand (it is the one-parameter function `pattern => pattern.length`),
so it orders two patterns of lengths 5 and 9 after each other in both
directions; consequently comparator-driven sorting of patterns with lengths
5, 9, 7 yields the order 7, 9, 5, which is sorted by length neither
ascending nor descending — the pattern list after `build()` is not ordered
by the matched literal length. -/
theorem build_sort_comparator_defect :
    (sortComparator (mkTestPattern 5) (mkTestPattern 9) = 5)
  ∧ (sortComparator (mkTestPattern 9) (mkTestPattern 5) = 9)
  ∧ (threePatternCtx.build.patterns.map (fun p => p.length) = [7, 9, 5])
  ∧ (sortedAscBy (fun n => n) [7, 9, 5] = false)
  ∧ (sortedDescBy (fun n => n) [7, 9, 5] = false) :=
  ⟨rfl, rfl, rfl, rfl, rfl⟩

/-- C10: the memo key joins path and address with a single space, so the
distinct pairs `('/a b', 'c')` and `('/a', 'b c')` share one key; over the
registry denying everyone on the literal resource `/a 1.2.3.4`, evaluating
`('/a 1.2.3.4', '5.6.7.8')` caches `false`, after which evaluating
`('/a', '1.2.3.4 5.6.7.8')` returns that cached `false` even though running
resolution on its own inputs yields `true`. -/
theorem memo_key_collision_returns_cached_decision :
    (memoKey "/a b" "c" = memoKey "/a" "b c")
  ∧ ("/a b" ≠ "/a")
  ∧ ((spacedChain.map fun c =>
        let b := c.build
        let first := evalMemo b [] "/a 1.2.3.4" "5.6.7.8"
        let second := evalMemo b first.2 "/a" "1.2.3.4 5.6.7.8"
        (first.1, second.1, c.isAllowed "/a" "1.2.3.4 5.6.7.8"))
      = .ok (.ok false, .ok false, .ok true)) :=
  ⟨rfl, by decide, rfl⟩

end Acl
